import Mathlib

/-!
Shallow embedding of the go-dedupe duplicate-file scanner (src/main.go).

The program walks a directory tree, filters entries (regular file, optional
regular-expression name filter, zero-size and oversize routing), hashes the
surviving files concurrently through a bounded goroutine pool, aggregates the
results in a shared map keyed by size:digest, and finally extracts one
canonical copy per duplicate group together with a manifest of the siblings.

Modelling choices:
* The filesystem snapshot seen by one run is a list of WalkEntry values, in
  walk order.  Each entry carries the metadata the walker reads (path, mode,
  size, modification time) together with the content a later read would
  return; content = none models a file whose open or read fails during
  hashing.
* crypto/md5 is abstracted as a parameter md5 : List Nat → String, a
  deterministic function of the file bytes.
* Go maps become functions String → Option _ (or String → Bool for the
  map-as-set duplicateList); map assignment is pointwise update.
* The completion order of the hashing goroutines is an explicit list that is
  a permutation of the spawned tasks; the deterministic scanFiles runs them
  in submission order, scanFilesWith takes an arbitrary completion order.
* The channel-as-semaphore scheduler of scanFiles is embedded separately as a
  small-step transition system (SchedStep / SchedReachable) over abstract
  task counts, because its property is about interleavings, not values.
* Logging (log.Printf, progress messages) has no effect on the returned data
  and is omitted.
-/

namespace GoDedupe

/-- Digest string a hashing task publishes when the file could not be opened
or read (main.go line 120). -/
def errorSentinel : String := "00000000000000000000000000000000"

/-- Scan options (main.go lines 34-39).  A compiled regular expression is
modelled extensionally, as the Boolean matcher it denotes on strings. -/
structure ScanOptions where
  MaxMB : Int
  Detail : Int
  MaxQueueLength : Nat
  RegExes : List (String → Bool)

/-- One filesystem entry as the walker visits it, bundled with the snapshot
of the bytes a later read returns; content = none models an open or read
failure during hashing. -/
structure WalkEntry where
  path : String
  isRegular : Bool
  size : Int
  mtime : Nat
  content : Option (List Nat)
deriving DecidableEq

/-- Last non-empty slash-separated component of a character list: cur is the
component being read, last the latest non-empty component finished so far. -/
def lastComponent : List Char → List Char → Option (List Char) → Option (List Char)
  | [], cur, last => if cur.isEmpty then last else some cur
  | c :: cs, cur, last =>
    if c = '/' then lastComponent cs [] (if cur.isEmpty then last else some cur)
    else lastComponent cs (cur ++ [c]) last

/-- Go filepath.Base restricted to slash-separated paths: last non-empty
component; "." for the empty path, "/" when the path is all slashes.  Used by
the regex filter (main.go line 66) and the extractor (line 304). -/
def baseName (p : String) : String :=
  if p = "" then "."
  else
    match lastComponent p.data [] none with
    | none => "/"
    | some cs => String.mk cs

/-- Regular-expression name filter (main.go lines 63-74): with no patterns
configured every name passes; otherwise the base name must match at least
one pattern. -/
def matchesFilter (options : ScanOptions) (filePath : String) : Bool :=
  match options.RegExes with
  | [] => true
  | res => res.any (fun re => re (baseName filePath))

/-- getMD5Hash (main.go lines 163-176) over the snapshot content: an open or
read failure yields an error, otherwise the digest of the bytes. -/
def getMD5Hash (md5 : List Nat → String) (content : Option (List Nat)) :
    Except String String :=
  match content with
  | none => Except.error "open or read error"
  | some bytes => Except.ok (md5 bytes)

/-- Digest the hashing goroutine ends up with (main.go lines 115-121): on
error the sentinel value is substituted. -/
def hashTaskDigest (md5 : List Nat → String) (e : WalkEntry) : String :=
  match getMD5Hash md5 e.content with
  | Except.error _ => errorSentinel
  | Except.ok h => h

/-- Key under which a file is grouped: fmt.Sprintf of size and digest
(main.go line 129). -/
def keyOf (md5 : List Nat → String) (e : WalkEntry) : String :=
  toString e.size ++ ":" ++ hashTaskDigest md5 e

/-- Record stored per file (main.go lines 130-136). -/
structure FileInfo where
  name : String
  size : Int
  md5_hash : String
  key : String
  mtime : Nat
deriving DecidableEq

/-- Construction of the per-file record (main.go lines 130-136). -/
def mkFileInfo (md5 : List Nat → String) (e : WalkEntry) : FileInfo :=
  { name := e.path
    size := e.size
    md5_hash := hashTaskDigest md5 e
    key := keyOf md5 e
    mtime := e.mtime }

/-- Shared aggregation state: fileDict maps a key to its group, duplicateList
is the key set flagged as duplicate (main.go lines 42-43). -/
structure ScanState where
  fileDict : String → Option (List FileInfo)
  duplicateList : String → Bool

/-- Initial aggregation state: both maps empty. -/
def emptyScanState : ScanState :=
  { fileDict := fun _ => none, duplicateList := fun _ => false }

/-- Critical section of one hashing goroutine (main.go lines 138-148): when
the digest is not the error sentinel, append to an existing group and flag
the key duplicate, or open a fresh single-member group. -/
def recordFile (md5 : List Nat → String) (st : ScanState) (e : WalkEntry) :
    ScanState :=
  let fileHash := hashTaskDigest md5 e
  let key := keyOf md5 e
  let fileInfo := mkFileInfo md5 e
  if fileHash ≠ errorSentinel then
    match st.fileDict key with
    | some grp =>
      { fileDict := fun k => if k = key then some (grp ++ [fileInfo]) else st.fileDict k
        duplicateList := fun k => if k = key then true else st.duplicateList k }
    | none =>
      { fileDict := fun k => if k = key then some [fileInfo] else st.fileDict k
        duplicateList := st.duplicateList }
  else st

/-- Aggregation of a whole run: the hashing tasks commit their results one at
a time (the mutex serialises them), in the given completion order. -/
def aggregate (md5 : List Nat → String) (order : List WalkEntry) : ScanState :=
  order.foldl (recordFile md5) emptyScanState

/-- Test whether a completed hashing task for e commits a record under key k:
its digest is not the error sentinel and its key is k. -/
def recordedUnder (md5 : List Nat → String) (k : String) (e : WalkEntry) : Bool :=
  decide (hashTaskDigest md5 e ≠ errorSentinel ∧ keyOf md5 e = k)

/-- Outcome of the walk callback on one entry (main.go lines 52-151): skip it,
route it to the zero-length list, route it to the oversize list, or submit a
hashing task. -/
inductive WalkAction where
  | skip
  | zero
  | large
  | spawn
deriving DecidableEq

/-- Decision sequence of the walk callback (main.go lines 59-107), in source
order: regular-file test, regex name filter, zero-size routing, oversize
routing, and otherwise a hashing task is spawned. -/
def walkAction (options : ScanOptions) (e : WalkEntry) : WalkAction :=
  if !e.isRegular then WalkAction.skip
  else if !(matchesFilter options e.path) then WalkAction.skip
  else if e.size = 0 then WalkAction.zero
  else if 0 < options.MaxMB ∧ options.MaxMB * 1024 * 1024 < e.size then WalkAction.large
  else WalkAction.spawn

/-- Entries for which the walk submits a hashing task, in walk order. -/
def spawnedEntries (options : ScanOptions) (entries : List WalkEntry) :
    List WalkEntry :=
  entries.filter (fun e => decide (walkAction options e = WalkAction.spawn))

/-- The four values scanFiles returns (main.go line 160). -/
structure ScanResult where
  fileDict : String → Option (List FileInfo)
  duplicateList : String → Bool
  zeroLengthFiles : List String
  largeFiles : List String

/-- scanFiles (main.go lines 41-161) with an explicit completion order of the
hashing tasks: the walk routes every entry, and the aggregation state is the
fold of the task commits in completion order. -/
def scanFilesWith (md5 : List Nat → String) (options : ScanOptions)
    (entries : List WalkEntry) (completionOrder : List WalkEntry) : ScanResult :=
  let st := aggregate md5 completionOrder
  { fileDict := st.fileDict
    duplicateList := st.duplicateList
    zeroLengthFiles :=
      (entries.filter (fun e => decide (walkAction options e = WalkAction.zero))).map WalkEntry.path
    largeFiles :=
      (entries.filter (fun e => decide (walkAction options e = WalkAction.large))).map WalkEntry.path }

/-- scanFiles with tasks completing in submission order (one representative
completion order; group membership is completion-order independent). -/
def scanFiles (md5 : List Nat → String) (options : ScanOptions)
    (entries : List WalkEntry) : ScanResult :=
  scanFilesWith md5 options entries (spawnedEntries options entries)

/-- Group stored under a key, the empty group when the key is absent. -/
def findD (d : String → Option (List FileInfo)) (k : String) : List FileInfo :=
  (d k).getD []

/-- Paths of the members of the group stored under a key. -/
def resultGroupPaths (r : ScanResult) (k : String) : List String :=
  (findD r.fileDict k).map FileInfo.name

/-! Canonical extraction (main.go lines 292-342).  The destination directory
is modelled as an association list from path to content; os.Create followed
by io.Copy replaces any existing binding of that path (truncation). -/

/-- Go filepath.Join for a directory and a name, restricted to the shapes the
extractor produces. -/
def filepathJoin (dir name : String) : String :=
  if dir = "" then name else dir ++ "/" ++ name

/-- Lookup of a path in the modelled destination filesystem. -/
def lookupFS (fs : List (String × String)) (name : String) : Option String :=
  (fs.find? (fun p => p.1 == name)).map Prod.snd

/-- os.Create plus io.Copy (main.go lines 314-325): creates the file or
truncates an existing one, leaving it with exactly the copied content. -/
def createAndCopy (fs : List (String × String)) (name content : String) :
    List (String × String) :=
  (fs.filter (fun p => !(p.1 == name))) ++ [(name, content)]

/-- Body of the representative-selection loop (main.go lines 298-302): keep
the record with the strictly latest modification time, so ties keep the
earlier record. -/
def latestOf (latestFile : Option FileInfo) (file : FileInfo) : Option FileInfo :=
  match latestFile with
  | none => some file
  | some l => if l.mtime < file.mtime then some file else some l

/-- Selection of the representative (main.go lines 297-302): fold of the loop
body over the group, starting from nil. -/
def selectLatest (dupeFiles : List FileInfo) : Option FileInfo :=
  dupeFiles.foldl latestOf none

/-- Content of the duplicate-list manifest (main.go lines 336-340): every
member other than the canonical one, one path per line. -/
def manifestContent (dupeFiles : List FileInfo) (firstFile : String) : String :=
  String.join
    ((dupeFiles.filter (fun f => !(f.name == firstFile))).map (fun f => f.name ++ "\n"))

/-- Extraction of one duplicate group (main.go lines 295-341): pick the
latest-modified member, copy its bytes to destination/baseName, and write the
manifest next to it under the name with suffix -dup-list.txt.  srcContent
gives the bytes of a source path; error paths of the copies are not modelled
(the claims under study are about naming). -/
def extractGroup (uniqFilesPath : String) (srcContent : String → String)
    (dupeFiles : List FileInfo) (fs : List (String × String)) :
    List (String × String) :=
  if 0 < dupeFiles.length then
    match selectLatest dupeFiles with
    | none => fs
    | some latestFile =>
      let firstFile := latestFile.name
      let uniqFilePath := filepathJoin uniqFilesPath (baseName firstFile)
      let fs1 := createAndCopy fs uniqFilePath (srcContent firstFile)
      let dupListFilePath := uniqFilePath ++ "-dup-list.txt"
      createAndCopy fs1 dupListFilePath (manifestContent dupeFiles firstFile)
  else fs

/-! Bounded hashing scheduler (main.go lines 48-50, 106-111, 154), embedded
as a small-step transition system.  The buffered channel md5Queue of capacity
q is the permission pool: queued is its occupancy, preSpawn counts permits
acquired by the producer whose goroutine has not started running yet, running
counts active hashing goroutines, wgCount is the WaitGroup counter, and
finishedScan records that wg.Wait has returned. -/

/-- Abstract scheduler state. -/
structure SchedState where
  toSubmit : Nat
  preSpawn : Nat
  running : Nat
  queued : Nat
  wgCount : Nat
  finishedScan : Bool
deriving DecidableEq

/-- Scheduler state at the start of a scan of n eligible files. -/
def initSched (n : Nat) : SchedState :=
  { toSubmit := n, preSpawn := 0, running := 0, queued := 0, wgCount := 0
    finishedScan := false }

/-- One scheduler transition.  submit is wg.Add(1) followed by the channel
send (which blocks unless queued < q, main.go lines 106-107); spawn starts
the goroutine of an acquired permit (line 109); finish is a goroutine ending,
whose deferred statements release the permit and decrement the WaitGroup
unconditionally, on success and on failure alike (lines 110-111); complete is
wg.Wait returning (line 154), possible only once every submitted task has
finished. -/
inductive SchedStep (q : Nat) : SchedState → SchedState → Prop where
  | submit (s : SchedState) (h1 : 0 < s.toSubmit) (h2 : s.queued < q)
      (h3 : s.finishedScan = false) :
      SchedStep q s
        { toSubmit := s.toSubmit - 1, preSpawn := s.preSpawn + 1
          running := s.running, queued := s.queued + 1
          wgCount := s.wgCount + 1, finishedScan := false }
  | spawn (s : SchedState) (h : 0 < s.preSpawn) :
      SchedStep q s { s with preSpawn := s.preSpawn - 1, running := s.running + 1 }
  | finish (s : SchedState) (h : 0 < s.running) :
      SchedStep q s
        { s with running := s.running - 1, queued := s.queued - 1
                 wgCount := s.wgCount - 1 }
  | complete (s : SchedState) (h1 : s.toSubmit = 0) (h2 : s.wgCount = 0)
      (h3 : s.finishedScan = false) :
      SchedStep q s { s with finishedScan := true }

/-- States a scan with concurrency limit q and n eligible files can reach. -/
inductive SchedReachable (q n : Nat) : SchedState → Prop where
  | init : SchedReachable q n (initSched n)
  | step {s t : SchedState} : SchedReachable q n s → SchedStep q s t →
      SchedReachable q n t

/-- Scheduler invariant: channel occupancy equals acquired-but-unfinished
tasks, never exceeds the capacity, matches the WaitGroup counter, and a
finished scan has an empty WaitGroup. -/
def schedInv (q : Nat) (s : SchedState) : Prop :=
  s.queued = s.preSpawn + s.running ∧ s.queued ≤ q ∧ s.wgCount = s.queued ∧
    (s.finishedScan = true → s.wgCount = 0)

/-! Concrete inputs used by the witnesses and counterexamples. -/

/-- Digest function used by concrete witnesses: constant digest "d". -/
def sampleMd5 : List Nat → String := fun _ => "d"

/-- Digest function that maps every content to the sentinel value, used by
the C10 witness. -/
def sentinelMd5 : List Nat → String := fun _ => errorSentinel

/-- Options with no name patterns and no size ceiling. -/
def sampleOptions : ScanOptions := ⟨0, 77, 5, []⟩

/-- Options with a one-megabyte ceiling and one name pattern matching exactly
the base name a.txt. -/
def regexOptions : ScanOptions := ⟨1, 77, 5, [fun s => s == "a.txt"]⟩

/-- A regular file of three bytes. -/
def sampleA : WalkEntry := ⟨"a/x.txt", true, 3, 10, some [1, 2, 3]⟩

/-- A second regular file with the same bytes at another path. -/
def sampleB : WalkEntry := ⟨"b/x.txt", true, 3, 7, some [1, 2, 3]⟩

/-- A regular readable file whose open fails at hash time, used by the C2
witness. -/
def failEntry : WalkEntry := ⟨"c/f.bin", true, 5, 0, none⟩

/-- A regular zero-length file whose base name matches no pattern. -/
def zeroNoMatchEntry : WalkEntry := ⟨"d/b.bin", true, 0, 0, some []⟩

/-- A regular two-megabyte file whose base name matches no pattern. -/
def bigNoMatchEntry : WalkEntry := ⟨"d/big.bin", true, 2097152, 0, some [1]⟩

/-- A regular zero-length file whose base name matches the pattern. -/
def zeroMatchEntry : WalkEntry := ⟨"d/a.txt", true, 0, 0, some []⟩

/-- A regular two-megabyte file whose base name matches the pattern. -/
def bigMatchEntry : WalkEntry := ⟨"e/a.txt", true, 2097152, 0, some [1]⟩

/-- A three-member group with a modification-time tie at the maximum. -/
def sampleGroup : List FileInfo :=
  [⟨"a/x.txt", 3, "d", "3:d", 7⟩, ⟨"b/x.txt", 3, "d", "3:d", 10⟩,
   ⟨"c/x.txt", 3, "d", "3:d", 10⟩]

/-- Duplicate group used by the C1 scenario: two copies of photo.jpg, the
first more recently modified. -/
def cexGroup : List FileInfo :=
  [⟨"a/photo.jpg", 5, "d", "5:d", 10⟩, ⟨"b/photo.jpg", 5, "d", "5:d", 3⟩]

/-- Destination directory already holding a file named photo.jpg. -/
def cexDest : List (String × String) := [("out/photo.jpg", "OLD")]

/-- Scheduler state after one submission at limit 2 with 3 files. -/
def schedS1 : SchedState := ⟨2, 1, 0, 1, 1, false⟩

/-- Scheduler state after that task starts running. -/
def schedS2 : SchedState := ⟨2, 0, 1, 1, 1, false⟩

/-! Lemmas about the aggregation state. -/

/-- A task whose commit does not touch key k leaves the group of k alone. -/
lemma recordFile_fileDict_not_recorded (md5 : List Nat → String) (st : ScanState)
    (e : WalkEntry) (k : String) (h : recordedUnder md5 k e = false) :
    (recordFile md5 st e).fileDict k = st.fileDict k := by
  simp only [recordedUnder, decide_eq_false_iff_not, not_and] at h
  simp only [recordFile]
  by_cases hs : hashTaskDigest md5 e = errorSentinel
  · simp [hs]
  · have hk : keyOf md5 e ≠ k := h hs
    simp only [ne_eq, hs, not_false_eq_true, if_true]
    cases hdict : st.fileDict (keyOf md5 e) with
    | none => simp [if_neg (Ne.symm hk)]
    | some grp => simp [if_neg (Ne.symm hk)]

/-- A task whose commit lands on key k appends its record to the group of k,
creating the group if the key was absent. -/
lemma recordFile_fileDict_recorded (md5 : List Nat → String) (st : ScanState)
    (e : WalkEntry) (k : String) (h : recordedUnder md5 k e = true) :
    (recordFile md5 st e).fileDict k =
      some (findD st.fileDict k ++ [mkFileInfo md5 e]) := by
  simp only [recordedUnder, decide_eq_true_eq] at h
  obtain ⟨hs, hk⟩ := h
  subst hk
  simp only [recordFile, findD]
  simp only [ne_eq, hs, not_false_eq_true, if_true]
  cases hdict : st.fileDict (keyOf md5 e) with
  | none => simp [hdict]
  | some grp => simp [hdict]

/-- Effect of one task commit on the duplicate flag of key k: it is set
exactly when it was already set or the commit lands on a key already present
in the dictionary. -/
lemma recordFile_dupList (md5 : List Nat → String) (st : ScanState)
    (e : WalkEntry) (k : String) :
    (recordFile md5 st e).duplicateList k =
      (st.duplicateList k || (recordedUnder md5 k e && (st.fileDict k).isSome)) := by
  by_cases h : recordedUnder md5 k e = true
  · have h' := h
    simp only [recordedUnder, decide_eq_true_eq] at h'
    obtain ⟨hs, hk⟩ := h'
    subst hk
    simp only [recordFile]
    simp only [ne_eq, hs, not_false_eq_true, if_true]
    cases hdict : st.fileDict (keyOf md5 e) with
    | none => simp [hdict, h]
    | some grp => simp [hdict, h]
  · have hf : recordedUnder md5 k e = false := by
      cases hr : recordedUnder md5 k e with
      | false => rfl
      | true => exact absurd hr h
    simp only [hf, Bool.false_and, Bool.or_false]
    have h' := hf
    simp only [recordedUnder, decide_eq_false_iff_not, not_and] at h'
    simp only [recordFile]
    by_cases hs : hashTaskDigest md5 e = errorSentinel
    · simp [hs]
    · have hk : keyOf md5 e ≠ k := h' hs
      simp only [ne_eq, hs, not_false_eq_true, if_true]
      cases hdict : st.fileDict (keyOf md5 e) with
      | none => simp
      | some grp => simp [if_neg (Ne.symm hk)]

/-- Group of key k after a run of task commits from an arbitrary state: the
records of the committing tasks are appended in completion order. -/
lemma foldl_recordFile_findD (md5 : List Nat → String) (l : List WalkEntry)
    (st : ScanState) (k : String) :
    findD (l.foldl (recordFile md5) st).fileDict k =
      findD st.fileDict k ++ (l.filter (recordedUnder md5 k)).map (mkFileInfo md5) := by
  induction l generalizing st with
  | nil => simp
  | cons e l ih =>
    simp only [List.foldl_cons, List.filter_cons]
    rw [ih]
    cases h : recordedUnder md5 k e with
    | false =>
      rw [if_neg (by simp [h])]
      simp only [findD, recordFile_fileDict_not_recorded md5 st e k h]
    | true =>
      rw [if_pos rfl]
      simp only [findD, recordFile_fileDict_recorded md5 st e k h]
      simp [findD, List.append_assoc]

/-- Group of key k at the end of a run: exactly the committing tasks, in
completion order. -/
lemma aggregate_findD (md5 : List Nat → String) (l : List WalkEntry) (k : String) :
    findD (aggregate md5 l).fileDict k =
      (l.filter (recordedUnder md5 k)).map (mkFileInfo md5) := by
  rw [aggregate, foldl_recordFile_findD]
  simp [emptyScanState, findD]

/-- Duplicate flag of key k after a run of commits from an arbitrary state:
set iff it was set, or the key was already present and one task commits to
it, or two tasks commit to it. -/
lemma foldl_recordFile_dupList (md5 : List Nat → String) (l : List WalkEntry)
    (st : ScanState) (k : String) :
    (l.foldl (recordFile md5) st).duplicateList k =
      (st.duplicateList k ||
        ((st.fileDict k).isSome && decide (1 ≤ (l.filter (recordedUnder md5 k)).length)) ||
        decide (2 ≤ (l.filter (recordedUnder md5 k)).length)) := by
  induction l generalizing st with
  | nil => simp
  | cons e l ih =>
    simp only [List.foldl_cons, List.filter_cons]
    rw [ih]
    cases h : recordedUnder md5 k e with
    | false =>
      rw [if_neg (by simp)]
      rw [recordFile_dupList md5 st e k, h]
      rw [recordFile_fileDict_not_recorded md5 st e k h]
      simp
    | true =>
      rw [if_pos rfl]
      rw [recordFile_dupList md5 st e k, h]
      rw [recordFile_fileDict_recorded md5 st e k h]
      simp only [Option.isSome_some, Bool.true_and, List.length_cons]
      by_cases hd1 : 1 ≤ (List.filter (recordedUnder md5 k) l).length
      · have e1 : decide (1 ≤ (List.filter (recordedUnder md5 k) l).length) = true :=
          decide_eq_true hd1
        have e2 : decide (2 ≤ (List.filter (recordedUnder md5 k) l).length + 1) = true :=
          decide_eq_true (by omega)
        simp [e1, e2]
      · have hn : (List.filter (recordedUnder md5 k) l).length = 0 := by omega
        simp only [hn]
        cases st.duplicateList k <;> cases hp : (st.fileDict k).isSome <;> simp

/-- Duplicate flag of key k at the end of a run started from the empty state:
set iff at least two tasks committed records under k. -/
lemma aggregate_dupList (md5 : List Nat → String) (l : List WalkEntry) (k : String) :
    (aggregate md5 l).duplicateList k =
      decide (2 ≤ (l.filter (recordedUnder md5 k)).length) := by
  rw [aggregate, foldl_recordFile_dupList]
  simp [emptyScanState]

/-- The duplicate flag never unsets as further tasks commit. -/
lemma aggregate_dupList_mono (md5 : List Nat → String) (l extra : List WalkEntry)
    (k : String) (h : (aggregate md5 l).duplicateList k = true) :
    (aggregate md5 (l ++ extra)).duplicateList k = true := by
  rw [aggregate_dupList] at h ⊢
  simp only [decide_eq_true_eq, List.filter_append, List.length_append] at h ⊢
  omega

/-- Path membership in the group of key k, unfolded to the committing tasks. -/
lemma mem_resultGroupPaths_iff (md5 : List Nat → String) (options : ScanOptions)
    (entries order : List WalkEntry) (k p : String) :
    p ∈ resultGroupPaths (scanFilesWith md5 options entries order) k ↔
      ∃ f, f ∈ order ∧ recordedUnder md5 k f = true ∧ f.path = p := by
  simp only [resultGroupPaths, scanFilesWith, aggregate_findD, List.map_map,
    List.mem_map, List.mem_filter, Function.comp]
  constructor
  · rintro ⟨f, ⟨hf, hrec⟩, hp⟩
    exact ⟨f, hf, hrec, by simpa [mkFileInfo] using hp⟩
  · rintro ⟨f, hf, hrec, hp⟩
    exact ⟨f, ⟨hf, hrec⟩, by simpa [mkFileInfo] using hp⟩

/-- Membership in the zero-length list, unfolded to the walk routing. -/
lemma mem_zeroLengthFiles_iff (md5 : List Nat → String) (options : ScanOptions)
    (entries order : List WalkEntry) (p : String) :
    p ∈ (scanFilesWith md5 options entries order).zeroLengthFiles ↔
      ∃ f, f ∈ entries ∧ walkAction options f = WalkAction.zero ∧ f.path = p := by
  simp only [scanFilesWith, List.mem_map, List.mem_filter, decide_eq_true_eq]
  constructor
  · rintro ⟨f, ⟨hf, hz⟩, hp⟩
    exact ⟨f, hf, hz, hp⟩
  · rintro ⟨f, hf, hz, hp⟩
    exact ⟨f, ⟨hf, hz⟩, hp⟩

/-- Membership in the oversize list, unfolded to the walk routing. -/
lemma mem_largeFiles_iff (md5 : List Nat → String) (options : ScanOptions)
    (entries order : List WalkEntry) (p : String) :
    p ∈ (scanFilesWith md5 options entries order).largeFiles ↔
      ∃ f, f ∈ entries ∧ walkAction options f = WalkAction.large ∧ f.path = p := by
  simp only [scanFilesWith, List.mem_map, List.mem_filter, decide_eq_true_eq]
  constructor
  · rintro ⟨f, ⟨hf, hz⟩, hp⟩
    exact ⟨f, hf, hz, hp⟩
  · rintro ⟨f, hf, hz, hp⟩
    exact ⟨f, ⟨hf, hz⟩, hp⟩

/-- On a snapshot whose paths are distinct, the path determines the entry. -/
lemma path_inj {entries : List WalkEntry}
    (hnd : (entries.map WalkEntry.path).Nodup) {a b : WalkEntry}
    (ha : a ∈ entries) (hb : b ∈ entries) (hp : a.path = b.path) : a = b :=
  List.inj_on_of_nodup_map hnd ha hb hp

/-- Characterization of the walk submitting a hashing task. -/
lemma walkAction_spawn_iff (options : ScanOptions) (e : WalkEntry) :
    walkAction options e = WalkAction.spawn ↔
      (e.isRegular = true ∧ matchesFilter options e.path = true ∧ ¬ e.size = 0 ∧
        ¬(0 < options.MaxMB ∧ options.MaxMB * 1024 * 1024 < e.size)) := by
  unfold walkAction
  split_ifs with h1 h2 h3 h4
  all_goals simp_all

/-- Characterization of the walk routing an entry to the zero-length list. -/
lemma walkAction_zero_iff (options : ScanOptions) (e : WalkEntry) :
    walkAction options e = WalkAction.zero ↔
      (e.isRegular = true ∧ matchesFilter options e.path = true ∧ e.size = 0) := by
  unfold walkAction
  split_ifs with h1 h2 h3 h4
  all_goals simp_all

/-- Characterization of the walk routing an entry to the oversize list. -/
lemma walkAction_large_iff (options : ScanOptions) (e : WalkEntry) :
    walkAction options e = WalkAction.large ↔
      (e.isRegular = true ∧ matchesFilter options e.path = true ∧ ¬ e.size = 0 ∧
        0 < options.MaxMB ∧ options.MaxMB * 1024 * 1024 < e.size) := by
  unfold walkAction
  split_ifs with h1 h2 h3 h4
  all_goals simp_all

/-- C5: in any scan result a key is flagged duplicate iff its group has at
least two members, and once set the flag survives any further commits of the
same run. -/
theorem scan_c5 (md5 : List Nat → String) (options : ScanOptions)
    (entries order extra : List WalkEntry) (k : String) :
    ((scanFilesWith md5 options entries order).duplicateList k = true ↔
      2 ≤ (findD (scanFilesWith md5 options entries order).fileDict k).length) ∧
    ((aggregate md5 order).duplicateList k = true →
      (aggregate md5 (order ++ extra)).duplicateList k = true) := by
  constructor
  · show (aggregate md5 order).duplicateList k = true ↔
      2 ≤ (findD (aggregate md5 order).fileDict k).length
    rw [aggregate_dupList, aggregate_findD]
    simp
  · exact aggregate_dupList_mono md5 order extra k

/-- Witness for C5 at a concrete two-duplicate scan. -/
theorem scan_c5_witness :
    (scanFilesWith sampleMd5 sampleOptions [sampleA, sampleB]
      [sampleA, sampleB]).duplicateList "3:d" = true :=
  ((scan_c5 sampleMd5 sampleOptions [sampleA, sampleB] [sampleA, sampleB] []
    "3:d").1).mpr (by decide)

/-- Unfolding membership in the spawned-task list. -/
lemma mem_spawnedEntries (options : ScanOptions) (entries : List WalkEntry)
    (e : WalkEntry) :
    e ∈ spawnedEntries options entries ↔
      e ∈ entries ∧ walkAction options e = WalkAction.spawn := by
  simp [spawnedEntries, List.mem_filter]

/-- A task committing under key k has key k. -/
lemma recordedUnder_key {md5 : List Nat → String} {k : String} {e : WalkEntry}
    (h : recordedUnder md5 k e = true) : keyOf md5 e = k := by
  simp only [recordedUnder, decide_eq_true_eq] at h
  exact h.2

/-- A task committing under some key has a non-sentinel digest. -/
lemma recordedUnder_digest {md5 : List Nat → String} {k : String} {e : WalkEntry}
    (h : recordedUnder md5 k e = true) : hashTaskDigest md5 e ≠ errorSentinel := by
  simp only [recordedUnder, decide_eq_true_eq] at h
  exact h.1

/-- An entry with readable content and non-sentinel digest commits under its
own key. -/
lemma recordedUnder_self {md5 : List Nat → String} {e : WalkEntry}
    {c : List Nat} (hc : e.content = some c) (hs : md5 c ≠ errorSentinel) :
    recordedUnder md5 (keyOf md5 e) e = true := by
  simp [recordedUnder, hashTaskDigest, getMD5Hash, hc, hs]

/-- C7: group membership in the scan result does not depend on the completion
order of the hashing tasks, and successfully hashed files of equal size and
identical bytes land together in the single group of their common key. -/
theorem scan_c7 (md5 : List Nat → String) (options : ScanOptions)
    (entries order : List WalkEntry)
    (hnd : (entries.map WalkEntry.path).Nodup)
    (hperm : order.Perm (spawnedEntries options entries)) :
    (∀ k p, p ∈ resultGroupPaths (scanFilesWith md5 options entries order) k ↔
        p ∈ resultGroupPaths (scanFiles md5 options entries) k) ∧
    (∀ e1, e1 ∈ entries → ∀ e2, e2 ∈ entries →
      walkAction options e1 = WalkAction.spawn →
      walkAction options e2 = WalkAction.spawn →
      e1.size = e2.size →
      ∀ c, e1.content = some c → e2.content = some c → md5 c ≠ errorSentinel →
        keyOf md5 e1 = keyOf md5 e2 ∧
        e1.path ∈ resultGroupPaths (scanFilesWith md5 options entries order)
          (keyOf md5 e1) ∧
        e2.path ∈ resultGroupPaths (scanFilesWith md5 options entries order)
          (keyOf md5 e1) ∧
        (∀ k, e1.path ∈ resultGroupPaths (scanFilesWith md5 options entries order) k →
          k = keyOf md5 e1) ∧
        (∀ k, e2.path ∈ resultGroupPaths (scanFilesWith md5 options entries order) k →
          k = keyOf md5 e1)) := by
  constructor
  · intro k p
    rw [mem_resultGroupPaths_iff, scanFiles, mem_resultGroupPaths_iff]
    constructor
    · rintro ⟨f, hf, hrec, hp⟩
      exact ⟨f, hperm.mem_iff.mp hf, hrec, hp⟩
    · rintro ⟨f, hf, hrec, hp⟩
      exact ⟨f, hperm.mem_iff.mpr hf, hrec, hp⟩
  · intro e1 he1 e2 he2 hsp1 hsp2 hsize c hc1 hc2 hmd5
    have hkey : keyOf md5 e1 = keyOf md5 e2 := by
      simp [keyOf, hashTaskDigest, getMD5Hash, hc1, hc2, hsize]
    have horder1 : e1 ∈ order :=
      hperm.mem_iff.mpr ((mem_spawnedEntries options entries e1).mpr ⟨he1, hsp1⟩)
    have horder2 : e2 ∈ order :=
      hperm.mem_iff.mpr ((mem_spawnedEntries options entries e2).mpr ⟨he2, hsp2⟩)
    have hrec1 : recordedUnder md5 (keyOf md5 e1) e1 = true :=
      recordedUnder_self hc1 hmd5
    have hrec2 : recordedUnder md5 (keyOf md5 e1) e2 = true := by
      rw [hkey]
      exact recordedUnder_self hc2 hmd5
    have huniq : ∀ a, a ∈ entries → ∀ k,
        a.path ∈ resultGroupPaths (scanFilesWith md5 options entries order) k →
        k = keyOf md5 a := by
      intro a ha k hk
      obtain ⟨f, hford, hfrec, hfp⟩ :=
        (mem_resultGroupPaths_iff md5 options entries order k a.path).mp hk
      have hfent : f ∈ entries :=
        ((mem_spawnedEntries options entries f).mp (hperm.mem_iff.mp hford)).1
      have hfa : f = a := path_inj hnd hfent ha hfp
      rw [← recordedUnder_key hfrec, hfa]
    refine ⟨hkey, ?_, ?_, huniq e1 he1, fun k hk => hkey ▸ huniq e2 he2 k hk⟩
    · exact (mem_resultGroupPaths_iff md5 options entries order
        (keyOf md5 e1) e1.path).mpr ⟨e1, horder1, hrec1, rfl⟩
    · exact (mem_resultGroupPaths_iff md5 options entries order
        (keyOf md5 e1) e2.path).mpr ⟨e2, horder2, hrec2, rfl⟩

/-- Witness for C7 at a concrete two-duplicate scan with reversed completion
order. -/
theorem scan_c7_witness :
    sampleA.path ∈ resultGroupPaths
      (scanFilesWith sampleMd5 sampleOptions [sampleA, sampleB]
        [sampleB, sampleA])
      (keyOf sampleMd5 sampleA) :=
  ((scan_c7 sampleMd5 sampleOptions [sampleA, sampleB] [sampleB, sampleA]
      (by decide) (by decide)).2 sampleA (by decide) sampleB (by decide)
      (by decide) (by decide) rfl [1, 2, 3] rfl rfl (by decide)).2.1

/-- A file whose task ends with the sentinel digest is in no group of the
scan result (paths distinct in the snapshot). -/
lemma path_not_in_groups_of_sentinel (md5 : List Nat → String)
    (options : ScanOptions) (entries : List WalkEntry)
    (hnd : (entries.map WalkEntry.path).Nodup) {e : WalkEntry}
    (he : e ∈ entries) (hsent : hashTaskDigest md5 e = errorSentinel) :
    ∀ k, e.path ∉ resultGroupPaths (scanFiles md5 options entries) k := by
  intro k hk
  rw [scanFiles] at hk
  obtain ⟨f, hford, hfrec, hfp⟩ :=
    (mem_resultGroupPaths_iff md5 options entries
      (spawnedEntries options entries) k e.path).mp hk
  have hfent : f ∈ entries := ((mem_spawnedEntries options entries f).mp hford).1
  have hfe : f = e := path_inj hnd hfent he hfp
  have hsentf : hashTaskDigest md5 f = errorSentinel := by rw [hfe]; exact hsent
  exact recordedUnder_digest hfrec hsentf

/-- A file for which a hashing task was submitted is in neither the
zero-length nor the oversize list (paths distinct in the snapshot). -/
lemma spawned_not_in_lists (md5 : List Nat → String) (options : ScanOptions)
    (entries : List WalkEntry) (hnd : (entries.map WalkEntry.path).Nodup)
    {e : WalkEntry} (he : e ∈ entries)
    (hspawn : walkAction options e = WalkAction.spawn) :
    e.path ∉ (scanFiles md5 options entries).zeroLengthFiles ∧
    e.path ∉ (scanFiles md5 options entries).largeFiles := by
  constructor
  · intro hk
    rw [scanFiles] at hk
    obtain ⟨f, hf, hz, hfp⟩ :=
      (mem_zeroLengthFiles_iff md5 options entries
        (spawnedEntries options entries) e.path).mp hk
    have hfe : f = e := path_inj hnd hf he hfp
    rw [hfe, hspawn] at hz
    exact absurd hz (by simp)
  · intro hk
    rw [scanFiles] at hk
    obtain ⟨f, hf, hz, hfp⟩ :=
      (mem_largeFiles_iff md5 options entries
        (spawnedEntries options entries) e.path).mp hk
    have hfe : f = e := path_inj hnd hf he hfp
    rw [hfe, hspawn] at hz
    exact absurd hz (by simp)

/-- A spawned entry with readable content and non-sentinel digest ends up in
the group of its key. -/
lemma spawned_in_group (md5 : List Nat → String) (options : ScanOptions)
    (entries : List WalkEntry) {f : WalkEntry} (hf : f ∈ entries)
    (hspawn : walkAction options f = WalkAction.spawn)
    {c : List Nat} (hc : f.content = some c) (hs : md5 c ≠ errorSentinel) :
    f.path ∈ resultGroupPaths (scanFiles md5 options entries) (keyOf md5 f) := by
  rw [scanFiles]
  exact (mem_resultGroupPaths_iff md5 options entries
    (spawnedEntries options entries) (keyOf md5 f) f.path).mpr
    ⟨f, (mem_spawnedEntries options entries f).mpr ⟨hf, hspawn⟩,
      recordedUnder_self hc hs, rfl⟩

/-- C2: a file whose open or read fails during hashing appears in no group,
in neither the zero-length nor the oversize list, and does not prevent the
remaining files from being recorded. -/
theorem scan_c2 (md5 : List Nat → String) (options : ScanOptions)
    (entries : List WalkEntry) (hnd : (entries.map WalkEntry.path).Nodup)
    (e : WalkEntry) (he : e ∈ entries)
    (hspawn : walkAction options e = WalkAction.spawn)
    (hfail : e.content = none) :
    (∀ k, e.path ∉ resultGroupPaths (scanFiles md5 options entries) k) ∧
    e.path ∉ (scanFiles md5 options entries).zeroLengthFiles ∧
    e.path ∉ (scanFiles md5 options entries).largeFiles ∧
    (∀ f, f ∈ entries → walkAction options f = WalkAction.spawn →
      ∀ c, f.content = some c → md5 c ≠ errorSentinel →
        f.path ∈ resultGroupPaths (scanFiles md5 options entries) (keyOf md5 f)) := by
  have hsent : hashTaskDigest md5 e = errorSentinel := by
    simp [hashTaskDigest, getMD5Hash, hfail]
  obtain ⟨hz, hl⟩ := spawned_not_in_lists md5 options entries hnd he hspawn
  exact ⟨path_not_in_groups_of_sentinel md5 options entries hnd he hsent, hz, hl,
    fun f hf hsp c hc hs => spawned_in_group md5 options entries hf hsp hc hs⟩
/-- Witness for C2 at a concrete scan with one unreadable file: the two
healthy duplicates are still recorded. -/
theorem scan_c2_witness :
    sampleA.path ∈ resultGroupPaths
      (scanFiles sampleMd5 sampleOptions [failEntry, sampleA, sampleB])
      (keyOf sampleMd5 sampleA) :=
  (scan_c2 sampleMd5 sampleOptions [failEntry, sampleA, sampleB] (by decide)
      failEntry (by decide) (by decide) rfl).2.2.2 sampleA (by decide) (by decide)
      [1, 2, 3] rfl (by decide)

/-- C10: a file hashed successfully to the all-zero sentinel digest is
dropped by the aggregator: it is in no group and in no list, exactly as if
its hash had failed. -/
theorem scan_c10 (md5 : List Nat → String) (options : ScanOptions)
    (entries : List WalkEntry) (hnd : (entries.map WalkEntry.path).Nodup)
    (e : WalkEntry) (he : e ∈ entries)
    (hspawn : walkAction options e = WalkAction.spawn)
    (c : List Nat) (hc : e.content = some c) (hz : md5 c = errorSentinel) :
    (∀ k, e.path ∉ resultGroupPaths (scanFiles md5 options entries) k) ∧
    e.path ∉ (scanFiles md5 options entries).zeroLengthFiles ∧
    e.path ∉ (scanFiles md5 options entries).largeFiles := by
  have hsent : hashTaskDigest md5 e = errorSentinel := by
    simp [hashTaskDigest, getMD5Hash, hc, hz]
  obtain ⟨hzl, hl⟩ := spawned_not_in_lists md5 options entries hnd he hspawn
  exact ⟨path_not_in_groups_of_sentinel md5 options entries hnd he hsent, hzl, hl⟩
/-- Witness for C10 at a concrete scan whose only file digests to the
sentinel value. -/
theorem scan_c10_witness :
    sampleA.path ∉ (scanFiles sentinelMd5 sampleOptions [sampleA]).zeroLengthFiles :=
  (scan_c10 sentinelMd5 sampleOptions [sampleA] (by decide) sampleA (by decide)
      (by decide) [1, 2, 3] rfl rfl).2.1
/-- C4 counterexample: with a name pattern configured, a regular zero-length
file whose base name matches no pattern is discarded by the pattern filter
before the size checks run, so it is not routed to the zero-length list —
against the claimed (a)(b)(c)(d) evaluation order. -/
theorem walk_c4_cex :
    walkAction regexOptions zeroNoMatchEntry = WalkAction.skip ∧
    zeroNoMatchEntry.size = 0 ∧ zeroNoMatchEntry.isRegular = true ∧
    (scanFiles sampleMd5 regexOptions [zeroNoMatchEntry]).zeroLengthFiles = [] := by
  decide

/-- C4 amended: the rules are evaluated in the order regular file, name
patterns, size zero, size ceiling; consequently a regular file that fails
the pattern filter is skipped outright, while a regular file passing the
filter is routed to the zero-length list when its size is 0 and to the
oversize list when it exceeds a configured ceiling. -/
theorem walk_c4_amended (md5 : List Nat → String) (options : ScanOptions)
    (entries : List WalkEntry) (e : WalkEntry) (he : e ∈ entries)
    (hreg : e.isRegular = true) :
    (matchesFilter options e.path = false → walkAction options e = WalkAction.skip) ∧
    (matchesFilter options e.path = true → e.size = 0 →
      e.path ∈ (scanFiles md5 options entries).zeroLengthFiles) ∧
    (matchesFilter options e.path = true → 0 < options.MaxMB →
      options.MaxMB * 1024 * 1024 < e.size →
      e.path ∈ (scanFiles md5 options entries).largeFiles) := by
  refine ⟨?_, ?_, ?_⟩
  · intro hm
    unfold walkAction
    simp [hreg, hm]
  · intro hm hz
    rw [scanFiles]
    exact (mem_zeroLengthFiles_iff md5 options entries
      (spawnedEntries options entries) e.path).mpr
      ⟨e, he, (walkAction_zero_iff options e).mpr ⟨hreg, hm, hz⟩, rfl⟩
  · intro hm hmb hsz
    have hpos : 0 < options.MaxMB * 1024 * 1024 := by positivity
    have hnz : ¬ e.size = 0 := by intro h0; rw [h0] at hsz; linarith
    rw [scanFiles]
    exact (mem_largeFiles_iff md5 options entries
      (spawnedEntries options entries) e.path).mpr
      ⟨e, he, (walkAction_large_iff options e).mpr ⟨hreg, hm, hnz, hmb, hsz⟩, rfl⟩

/-- Witness for the amended C4: a matching zero-length file is routed to the
zero-length list. -/
theorem walk_c4_amended_witness :
    zeroMatchEntry.path ∈
      (scanFiles sampleMd5 regexOptions [zeroMatchEntry]).zeroLengthFiles :=
  (walk_c4_amended sampleMd5 regexOptions [zeroMatchEntry] zeroMatchEntry
      (by decide) rfl).2.1 (by decide) rfl

/-- Record of a duplicate group obtained from membership in the final
dictionary of a scan. -/
lemma mem_findD_scanFiles {md5 : List Nat → String} {options : ScanOptions}
    {entries : List WalkEntry} {k : String} {fi : FileInfo}
    (h : fi ∈ findD (scanFiles md5 options entries).fileDict k) :
    ∃ f, f ∈ spawnedEntries options entries ∧ recordedUnder md5 k f = true ∧
      fi = mkFileInfo md5 f := by
  rw [scanFiles] at h
  have h2 : fi ∈ (List.filter (recordedUnder md5 k)
      (spawnedEntries options entries)).map (mkFileInfo md5) := by
    rw [← aggregate_findD]
    exact h
  obtain ⟨f, hf, hmk⟩ := List.mem_map.mp h2
  exact ⟨f, (List.mem_filter.mp hf).1, (List.mem_filter.mp hf).2, hmk.symm⟩

/-- C8 counterexample: a ceiling of one megabyte is configured and a regular
two-megabyte file whose name matches no pattern is discarded by the pattern
filter, so its path does not appear in the oversize list — against the
claimed unconditional routing. -/
theorem scan_c8_cex :
    0 < regexOptions.MaxMB ∧
    regexOptions.MaxMB * 1024 * 1024 < bigNoMatchEntry.size ∧
    walkAction regexOptions bigNoMatchEntry = WalkAction.skip ∧
    (scanFiles sampleMd5 regexOptions [bigNoMatchEntry]).largeFiles = [] := by
  decide

/-- C8 amended: with a ceiling C greater than 0 configured, a file larger
than C is never submitted for hashing, appears in no duplicate group (and
indeed every group record has size at most C), and its path appears in the
oversize list provided the file is regular and passes the name-pattern
filter. -/
theorem scan_c8_amended (md5 : List Nat → String) (options : ScanOptions)
    (entries : List WalkEntry) (hnd : (entries.map WalkEntry.path).Nodup)
    (hC : 0 < options.MaxMB) (e : WalkEntry) (he : e ∈ entries)
    (hsz : options.MaxMB * 1024 * 1024 < e.size) :
    e ∉ spawnedEntries options entries ∧
    (∀ k, e.path ∉ resultGroupPaths (scanFiles md5 options entries) k) ∧
    (∀ k fi, fi ∈ findD (scanFiles md5 options entries).fileDict k →
      fi.size ≤ options.MaxMB * 1024 * 1024) ∧
    (e.isRegular = true → matchesFilter options e.path = true →
      e.path ∈ (scanFiles md5 options entries).largeFiles) := by
  have hnotspawn : walkAction options e ≠ WalkAction.spawn := by
    intro hsp
    exact ((walkAction_spawn_iff options e).mp hsp).2.2.2 ⟨hC, hsz⟩
  refine ⟨?_, ?_, ?_, ?_⟩
  · intro hmem
    exact hnotspawn ((mem_spawnedEntries options entries e).mp hmem).2
  · intro k hk
    rw [scanFiles] at hk
    obtain ⟨f, hford, hfrec, hfp⟩ :=
      (mem_resultGroupPaths_iff md5 options entries
        (spawnedEntries options entries) k e.path).mp hk
    obtain ⟨hfent, hfsp⟩ := (mem_spawnedEntries options entries f).mp hford
    have hfe : f = e := path_inj hnd hfent he hfp
    rw [hfe] at hfsp
    exact hnotspawn hfsp
  · intro k fi hfi
    obtain ⟨f, hford, hfrec, hmk⟩ := mem_findD_scanFiles hfi
    obtain ⟨hfent, hfsp⟩ := (mem_spawnedEntries options entries f).mp hford
    have hble : ¬(0 < options.MaxMB ∧ options.MaxMB * 1024 * 1024 < f.size) :=
      ((walkAction_spawn_iff options f).mp hfsp).2.2.2
    have hfle : f.size ≤ options.MaxMB * 1024 * 1024 := by
      by_contra hlt
      exact hble ⟨hC, by omega⟩
    rw [hmk]
    exact hfle
  · intro hreg hm
    have hpos : 0 < options.MaxMB * 1024 * 1024 := by positivity
    have hnz : ¬ e.size = 0 := by intro h0; rw [h0] at hsz; linarith
    rw [scanFiles]
    exact (mem_largeFiles_iff md5 options entries
      (spawnedEntries options entries) e.path).mpr
      ⟨e, he, (walkAction_large_iff options e).mpr ⟨hreg, hm, hnz, hC, hsz⟩, rfl⟩

/-- Witness for the amended C8: a matching over-ceiling file lands in the
oversize list. -/
theorem scan_c8_amended_witness :
    bigMatchEntry.path ∈
      (scanFiles sampleMd5 regexOptions [bigMatchEntry]).largeFiles :=
  (scan_c8_amended sampleMd5 regexOptions [bigMatchEntry] (by decide)
      (by decide) bigMatchEntry (by decide) (by decide)).2.2.2 rfl (by decide)

/-- C9 counterexample: with a name pattern configured, a regular zero-length
file whose name matches no pattern is not recorded in the zero-length list —
against the claimed unconditional recording. -/
theorem scan_c9_cex :
    zeroNoMatchEntry.size = 0 ∧ zeroNoMatchEntry.isRegular = true ∧
    (scanFiles sampleMd5 regexOptions [zeroNoMatchEntry]).zeroLengthFiles = [] := by
  decide

/-- C9 amended: no record of size 0 appears in any duplicate group, a
zero-length file is never submitted for hashing, and a regular zero-length
file passing the name-pattern filter is recorded in the zero-length list. -/
theorem scan_c9_amended (md5 : List Nat → String) (options : ScanOptions)
    (entries : List WalkEntry) :
    (∀ k fi, fi ∈ findD (scanFiles md5 options entries).fileDict k →
      fi.size ≠ 0) ∧
    (∀ e, e ∈ entries → e.size = 0 → e ∉ spawnedEntries options entries) ∧
    (∀ e, e ∈ entries → e.size = 0 → e.isRegular = true →
      matchesFilter options e.path = true →
      e.path ∈ (scanFiles md5 options entries).zeroLengthFiles) := by
  refine ⟨?_, ?_, ?_⟩
  · intro k fi hfi
    obtain ⟨f, hford, hfrec, hmk⟩ := mem_findD_scanFiles hfi
    obtain ⟨hfent, hfsp⟩ := (mem_spawnedEntries options entries f).mp hford
    have hnz : ¬ f.size = 0 := ((walkAction_spawn_iff options f).mp hfsp).2.2.1
    rw [hmk]
    exact hnz
  · intro e he hz hmem
    obtain ⟨hfent, hfsp⟩ := (mem_spawnedEntries options entries e).mp hmem
    exact ((walkAction_spawn_iff options e).mp hfsp).2.2.1 hz
  · intro e he hz hreg hm
    rw [scanFiles]
    exact (mem_zeroLengthFiles_iff md5 options entries
      (spawnedEntries options entries) e.path).mpr
      ⟨e, he, (walkAction_zero_iff options e).mpr ⟨hreg, hm, hz⟩, rfl⟩

/-- Witness for the amended C9 at a concrete scan holding one zero-length
file that passes the filter. -/
theorem scan_c9_amended_witness :
    zeroMatchEntry.path ∈
      (scanFiles sampleMd5 regexOptions [zeroMatchEntry]).zeroLengthFiles :=
  (scan_c9_amended sampleMd5 regexOptions [zeroMatchEntry]).2.2 zeroMatchEntry
    (by decide) rfl rfl (by decide)

/-- The selection loop started from a current champion returns the first
record of maximal modification time among champion and remaining list. -/
lemma selectLatest_go (l : List FileInfo) (cur : FileInfo) :
    ∃ r l₁ l₂, l.foldl latestOf (some cur) = some r ∧
      cur :: l = l₁ ++ r :: l₂ ∧
      (∀ f ∈ cur :: l, f.mtime ≤ r.mtime) ∧
      (∀ f ∈ l₁, f.mtime < r.mtime) := by
  induction l generalizing cur with
  | nil => exact ⟨cur, [], [], rfl, rfl, by simp, by simp⟩
  | cons x l ih =>
    by_cases hx : cur.mtime < x.mtime
    · obtain ⟨r, l₁, l₂, hfold, hdec, hmax, hstrict⟩ := ih x
      have hxr : x.mtime ≤ r.mtime := hmax x (List.mem_cons_self x l)
      refine ⟨r, cur :: l₁, l₂, ?_, ?_, ?_, ?_⟩
      · simp only [List.foldl_cons, latestOf, if_pos hx]
        exact hfold
      · simp [hdec]
      · intro f hf
        rcases List.mem_cons.mp hf with rfl | hf2
        · omega
        · exact hmax f hf2
      · intro f hf
        rcases List.mem_cons.mp hf with rfl | hf2
        · omega
        · exact hstrict f hf2
    · obtain ⟨r, l₁, l₂, hfold, hdec, hmax, hstrict⟩ := ih cur
      have hfold2 : (x :: l).foldl latestOf (some cur) = some r := by
        simp only [List.foldl_cons, latestOf, if_neg hx]
        exact hfold
      cases l₁ with
      | nil =>
        simp only [List.nil_append, List.cons.injEq] at hdec
        obtain ⟨rfl, rfl⟩ := hdec
        refine ⟨cur, [], x :: l, hfold2, rfl, ?_, by simp⟩
        intro f hf
        rcases List.mem_cons.mp hf with rfl | hf2
        · exact le_refl _
        · rcases List.mem_cons.mp hf2 with rfl | hf3
          · omega
          · exact hmax f (List.mem_cons_of_mem cur hf3)
      | cons y t =>
        simp only [List.cons_append, List.cons.injEq] at hdec
        obtain ⟨rfl, hl⟩ := hdec
        have hcurr : cur.mtime < r.mtime := hstrict cur (List.mem_cons_self cur t)
        refine ⟨r, cur :: x :: t, l₂, hfold2, ?_, ?_, ?_⟩
        · simp [hl]
        · intro f hf
          rcases List.mem_cons.mp hf with rfl | hf2
          · omega
          · rcases List.mem_cons.mp hf2 with rfl | hf3
            · omega
            · exact hmax f (List.mem_cons_of_mem cur (hl ▸ hf3))
        · intro f hf
          rcases List.mem_cons.mp hf with rfl | hf2
          · omega
          · rcases List.mem_cons.mp hf2 with rfl | hf3
            · omega
            · exact hstrict f (List.mem_cons_of_mem cur hf3)

/-- C6: for a group of at least two members the extractor selects a member
of maximal recorded modification time, the first such member in iteration
order. -/
theorem extract_c6 (grp : List FileInfo) (h2 : 2 ≤ grp.length) :
    ∃ r l₁ l₂, selectLatest grp = some r ∧ grp = l₁ ++ r :: l₂ ∧
      (∀ f ∈ grp, f.mtime ≤ r.mtime) ∧ (∀ f ∈ l₁, f.mtime < r.mtime) := by
  cases grp with
  | nil => simp at h2
  | cons c l =>
    obtain ⟨r, l₁, l₂, hfold, hdec, hmax, hstrict⟩ := selectLatest_go l c
    exact ⟨r, l₁, l₂, hfold, hdec, hmax, hstrict⟩
/-- Witness for C6 at a concrete group: the first record of maximal
modification time is selected. -/
theorem extract_c6_witness :
    2 ≤ sampleGroup.length ∧
    ∃ r l₁ l₂, selectLatest sampleGroup = some r ∧ sampleGroup = l₁ ++ r :: l₂ ∧
      (∀ f ∈ sampleGroup, f.mtime ≤ r.mtime) ∧ (∀ f ∈ l₁, f.mtime < r.mtime) :=
  ⟨by decide, extract_c6 sampleGroup (by decide)⟩

/-- Unfolding of lookupFS on a cons cell. -/
lemma lookupFS_cons (p : String × String) (fs : List (String × String))
    (name : String) :
    lookupFS (p :: fs) name = if p.1 = name then some p.2 else lookupFS fs name := by
  by_cases h : p.1 = name
  · rw [lookupFS, List.find?_cons_of_pos _ (by simp [h]), if_pos h]
    rfl
  · rw [lookupFS, List.find?_cons_of_neg _ (by simp [h]), if_neg h]
    rfl

/-- Lookup after createAndCopy: the written path now holds the copied
content, every other path is unchanged. -/
lemma lookupFS_createAndCopy (fs : List (String × String)) (n c name : String) :
    lookupFS (createAndCopy fs n c) name =
      if name = n then some c else lookupFS fs name := by
  induction fs with
  | nil =>
    simp only [createAndCopy, List.filter_nil, List.nil_append]
    rw [lookupFS_cons]
    by_cases h : name = n
    · simp [h]
    · rw [if_neg (fun hh => h hh.symm), if_neg h]
  | cons p fs ih =>
    simp only [createAndCopy, List.filter_cons] at ih ⊢
    by_cases hp : p.1 = n
    · rw [if_neg (by simp [hp]), ih, lookupFS_cons]
      by_cases h : name = n
      · simp [h]
      · rw [if_neg h, if_neg h, if_neg (by rw [hp]; exact fun hh => h hh.symm)]
    · rw [if_pos (by simp [hp]), List.cons_append, lookupFS_cons, ih, lookupFS_cons]
      by_cases h : name = n
      · rw [if_pos h, if_pos h, if_neg (by rw [h]; exact hp)]
      · by_cases hq : p.1 = name <;> simp [hq, h]

/-- C1 amended: for every extracted group the canonical copy is written at
destination/baseName of the selected member and the manifest at that path
with suffix -dup-list.txt, truncating whatever file either path already
held; every other destination path is untouched. -/
theorem extract_c1_amended (uniqFilesPath : String) (srcContent : String → String)
    (dupeFiles : List FileInfo) (fs : List (String × String)) (r : FileInfo)
    (hsel : selectLatest dupeFiles = some r) (name : String) :
    lookupFS (extractGroup uniqFilesPath srcContent dupeFiles fs) name =
      if name = filepathJoin uniqFilesPath (baseName r.name) ++ "-dup-list.txt" then
        some (manifestContent dupeFiles r.name)
      else if name = filepathJoin uniqFilesPath (baseName r.name) then
        some (srcContent r.name)
      else lookupFS fs name := by
  have hne : dupeFiles ≠ [] := by
    intro h
    rw [h] at hsel
    exact Option.noConfusion hsel
  have hlen : 0 < dupeFiles.length := List.length_pos.mpr hne
  unfold extractGroup
  rw [if_pos hlen, hsel]
  rw [lookupFS_createAndCopy, lookupFS_createAndCopy]
/-- C1 counterexample: the destination already holds out/photo.jpg, and the
extractor writes the canonical copy over that very path — its old content is
gone and no suffixed name photo_1.jpg is produced. -/
theorem extract_c1_cex :
    lookupFS cexDest "out/photo.jpg" = some "OLD" ∧
    lookupFS (extractGroup "out" (fun _ => "NEW") cexGroup cexDest)
      "out/photo.jpg" = some "NEW" ∧
    lookupFS (extractGroup "out" (fun _ => "NEW") cexGroup cexDest)
      "out/photo_1.jpg" = none := by
  decide

/-- Witness for the amended C1 at the concrete group: the canonical copy
lands at out/photo.jpg. -/
theorem extract_c1_amended_witness :
    lookupFS (extractGroup "out" (fun _ => "NEW") cexGroup []) "out/photo.jpg"
      = some "NEW" := by
  rw [extract_c1_amended "out" (fun _ => "NEW") cexGroup []
      ⟨"a/photo.jpg", 5, "d", "5:d", 10⟩ (by decide) "out/photo.jpg"]
  decide
/-- The invariant holds initially. -/
lemma schedInv_init (q n : Nat) : schedInv q (initSched n) := by
  simp [schedInv, initSched]

/-- Every scheduler transition preserves the invariant. -/
lemma schedInv_step {q : Nat} {s t : SchedState} (hinv : schedInv q s)
    (hstep : SchedStep q s t) : schedInv q t := by
  obtain ⟨h1, h2, h3, h4⟩ := hinv
  cases hstep with
  | submit hs1 hs2 hs3 =>
    dsimp only [schedInv]
    refine ⟨by omega, by omega, by omega, by simp⟩
  | spawn hs =>
    dsimp only [schedInv]
    refine ⟨by omega, by omega, by omega, ?_⟩
    intro hf
    have := h4 hf
    omega
  | finish hs =>
    dsimp only [schedInv]
    refine ⟨by omega, by omega, by omega, ?_⟩
    intro hf
    have := h4 hf
    omega
  | complete hs1 hs2 hs3 =>
    exact ⟨h1, h2, h3, fun _ => hs2⟩

/-- C3: in every reachable scheduler state the number of running hashing
tasks is at most the configured limit q, and once the scan is reported
complete no task is outstanding. -/
theorem sched_c3 (q n : Nat) (s : SchedState) (h : SchedReachable q n s) :
    s.running ≤ q ∧
    (s.finishedScan = true →
      s.running = 0 ∧ s.preSpawn = 0 ∧ s.wgCount = 0) := by
  have hinv : schedInv q s := by
    induction h with
    | init => exact schedInv_init q n
    | step hr hs ih => exact schedInv_step ih hs
  obtain ⟨h1, h2, h3, h4⟩ := hinv
  refine ⟨by omega, ?_⟩
  intro hf
  have := h4 hf
  omega
/-- Witness for C3 at a concrete reachable state: after one submission and
one task start at limit 2, one task runs and the bound holds. -/
theorem sched_c3_witness :
    schedS2.running ≤ 2 ∧
    (schedS2.finishedScan = true →
      schedS2.running = 0 ∧ schedS2.preSpawn = 0 ∧ schedS2.wgCount = 0) :=
  sched_c3 2 3 schedS2
    (SchedReachable.step
      (SchedReachable.step SchedReachable.init
        (SchedStep.submit (initSched 3) (by decide) (by decide) rfl))
      (SchedStep.spawn schedS1 (by decide)))

end GoDedupe
